import Mathlib

/-!
Shallow embedding of the CoRoutines Arduino library (CoRoutines.h /
CoRoutines.cpp): the per-task timing and suspension state machine
`CoRoutine` and the `Scheduler` registry with its sweep and prune logic.

Machine model: timestamps are the C type `unsigned long`, modelled as
natural numbers reduced modulo `2 ^ w` where `w` is the bit width of
`unsigned long` on the target platform. The worker return value is a C
`int`, modelled as `Int`; its implicit conversion to `unsigned long` is
`uconv`. The external clock `millis()` is modelled as a stream
`clk : Nat → Nat` of readings together with an index counting how many
reads have happened so far; every call to `millis()` consumes one
position of the stream.

The scheduler stores raw pointers (`CoRoutine**`); pointers are modelled
as natural numbers, with `S` the byte width of a pointer on the target
platform. The `memcpy` inside `removeCoRoutine` is modelled at byte
granularity (little-endian), exactly as the source performs it.
-/

namespace CoRoutines

/-- Conversion of a C `int` value to `unsigned long` of bit width `w`:
reduction modulo `2 ^ w`. -/
def uconv (w : Nat) (v : Int) : Nat := (v % ((2 : Int) ^ w)).toNat

/-- State of one `CoRoutine` object. `wret` models the user-overridden
virtual `worker()`: the value returned by its `n`-th invocation, with
`calls` counting invocations so far. The remaining fields are the data
members of class `CoRoutine`. -/
structure CoRoutine where
  suspended : Bool
  waitRelativeToWorkerExit : Bool
  nextRun : Nat
  wret : Nat → Int
  calls : Nat

/-- One `millis()` reading: the `i`-th value of the clock stream,
reduced to the range of `unsigned long`. -/
def millisRead (w : Nat) (clk : Nat → Nat) (i : Nat) : Nat := clk i % 2 ^ w

/-- `CoRoutine::resume()`. Returns the new task state and the new clock
stream index (how many `millis()` reads have been consumed). -/
def CoRoutine.resume (w : Nat) (clk : Nat → Nat) (i : Nat) (s : CoRoutine) :
    CoRoutine × Nat :=
  let startOfRun := millisRead w clk i
  let i1 := i + 1
  if s.suspended = false ∧ s.nextRun ≤ startOfRun then
    let waitTime := s.wret s.calls
    let s1 : CoRoutine := { s with calls := s.calls + 1 }
    if waitTime = -1 then
      ({ s1 with suspended := true }, i1)
    else if s1.waitRelativeToWorkerExit then
      ({ s1 with nextRun := (millisRead w clk i1 + uconv w waitTime) % 2 ^ w }, i1 + 1)
    else if s1.nextRun ≠ 0 then
      ({ s1 with nextRun := (s1.nextRun + uconv w waitTime) % 2 ^ w }, i1)
    else
      ({ s1 with nextRun := (startOfRun + uconv w waitTime) % 2 ^ w }, i1)
  else
    (s, i1)

/-- `CoRoutine::isSuspended()`. -/
def CoRoutine.isSuspended (s : CoRoutine) : Bool := s.suspended

/-- `CoRoutine::awake()`. -/
def CoRoutine.awake (s : CoRoutine) : CoRoutine :=
  if s.suspended then { s with nextRun := 0, suspended := false } else s

/-- `CoRoutine::suspend()`. -/
def CoRoutine.suspend (s : CoRoutine) : CoRoutine := { s with suspended := true }

/-- `n` consecutive calls to `resume()` on the same task, threading the
clock stream index. -/
def resumeN (w : Nat) (clk : Nat → Nat) : Nat → CoRoutine → Nat → CoRoutine × Nat
  | i, s, 0 => (s, i)
  | i, s, n + 1 =>
    resumeN w clk (CoRoutine.resume w clk i s).2 (CoRoutine.resume w clk i s).1 n

/-- State of a `Scheduler`: the live prefix of the pointer array
(`entries.length = noEntries`) and the allocated capacity `arraySize`.
Entry values are pointers, each below `256 ^ S` for pointer byte
width `S`. -/
structure Scheduler where
  entries : List Nat
  arraySize : Nat

/-- `Scheduler::noEntries`. -/
def Scheduler.noEntries (sch : Scheduler) : Nat := sch.entries.length

/-- Capacity after `Scheduler::resize(newSize)`: if the array is too
small, double it (starting out with one place); otherwise unchanged. -/
def resizeCap (arraySize newSize : Nat) : Nat :=
  if arraySize < newSize then (if arraySize = 0 then 1 else 2 * arraySize)
  else arraySize

/-- `Scheduler::addCoRoutine`: append the pointer at the back, growing
the array first if needed. -/
def Scheduler.addCoRoutine (sch : Scheduler) (p : Nat) : Scheduler :=
  { entries := sch.entries ++ [p],
    arraySize := resizeCap sch.arraySize (sch.entries.length + 1) }

/-- Little-endian byte decomposition of a pointer value, `S` bytes. -/
def toBytesLE : Nat → Nat → List Nat
  | 0, _ => []
  | S + 1, v => v % 256 :: toBytesLE S (v / 256)

/-- Recompose a pointer value from little-endian bytes. -/
def fromBytesLE : List Nat → Nat
  | [] => 0
  | b :: bs => b + 256 * fromBytesLE bs

/-- The raw bytes of the live region of the pointer array. -/
def flattenEntries (S : Nat) (es : List Nat) : List Nat :=
  (es.map (toBytesLE S)).flatten

/-- Read `n` pointers back out of a byte buffer. -/
def unflattenEntries (S : Nat) : Nat → List Nat → List Nat
  | 0, _ => []
  | n + 1, bs => fromBytesLE (bs.take S) :: unflattenEntries S n (bs.drop S)

/-- `memcpy(dst + off, src, src.length)` on byte buffers. -/
def memcpyBytes (dst : List Nat) (off : Nat) (src : List Nat) : List Nat :=
  dst.take off ++ src ++ dst.drop (off + src.length)

/-- The search loop of `Scheduler::removeCoRoutine`:
`for (size_t i = noEntries-1; i != 0; --i)` — checks indices `i`,
`i-1`, ..., `1` (never index 0) and stops at the first match. -/
def scanForCo (es : List Nat) (p : Nat) : Nat → Option Nat
  | 0 => none
  | i + 1 => if es.getD (i + 1) 0 = p then some (i + 1) else scanForCo es p i

/-- `Scheduler::removeCoRoutine`. The shift of the tail is the source's
`memcpy(&coRoutines[foundIndex], &coRoutines[foundIndex+1], entriesToMove)`
— note the byte count is `entriesToMove`, not
`entriesToMove * sizeof(CoRoutine*)`. -/
def Scheduler.removeCoRoutine (S : Nat) (sch : Scheduler) (p : Nat) : Scheduler :=
  if sch.entries.length = 0 then sch
  else
    match scanForCo sch.entries p (sch.entries.length - 1) with
    | none => sch
    | some foundIndex =>
      let n := sch.entries.length
      let entriesToMove := n - (foundIndex + 1)
      let bs := flattenEntries S sch.entries
      let src := (bs.drop ((foundIndex + 1) * S)).take entriesToMove
      let bs2 := memcpyBytes bs (foundIndex * S) src
      { sch with entries := unflattenEntries S (n - 1) bs2 }

/-- First pass of `Scheduler::runOnce`: call `resume()` on each entry in
registration order. `h` is the heap, mapping pointer values to task
states; the clock stream index is threaded through. -/
def sweepResume (w : Nat) (clk : Nat → Nat) :
    (Nat → CoRoutine) → Nat → List Nat → (Nat → CoRoutine) × Nat
  | h, i, [] => (h, i)
  | h, i, p :: ps =>
    let r := CoRoutine.resume w clk i (h p)
    sweepResume w clk (fun q => if q = p then r.1 else h q) r.2 ps

/-- Second pass of `Scheduler::runOnce`:
`for (size_t i = noEntries-1; i != 0; --i)` — visits indices `i` down
to `1` (never index 0), removing the entry's task if it is suspended.
Reads the current (possibly already shifted) array at each step. -/
def pruneLoop (S : Nat) (h : Nat → CoRoutine) : Scheduler → Nat → Scheduler
  | sch, 0 => sch
  | sch, i + 1 =>
    let p := sch.entries.getD (i + 1) 0
    let sch2 := if (h p).isSuspended then sch.removeCoRoutine S p else sch
    pruneLoop S h sch2 i

/-- `Scheduler::runOnce(removeSuspendedCoRoutines)`: resume every entry,
then, if requested and the registry is non-empty, prune suspended
tasks. Returns the heap after the worker calls, the clock stream index,
and the scheduler state. -/
def Scheduler.runOnce (w S : Nat) (clk : Nat → Nat) (h : Nat → CoRoutine)
    (i : Nat) (sch : Scheduler) (removeSuspendedCoRoutines : Bool) :
    (Nat → CoRoutine) × Nat × Scheduler :=
  let r := sweepResume w clk h i sch.entries
  if sch.entries.length ≠ 0 ∧ removeSuspendedCoRoutines = true then
    (r.1, r.2, pruneLoop S r.1 sch (sch.entries.length - 1))
  else
    (r.1, r.2, sch)

/-- A single registry operation: `addCoRoutine` or `removeCoRoutine`. -/
inductive SchedOp where
  | add : Nat → SchedOp
  | remove : Nat → SchedOp

/-- Apply one registry operation. -/
def applyOp (S : Nat) (sch : Scheduler) : SchedOp → Scheduler
  | SchedOp.add p => sch.addCoRoutine p
  | SchedOp.remove p => sch.removeCoRoutine S p

/-- Run a sequence of registry operations from the empty scheduler
(`coRoutines = 0, arraySize = 0, noEntries = 0`). -/
def runOps (S : Nat) (ops : List SchedOp) : Scheduler :=
  ops.foldl (applyOp S) ⟨[], 0⟩

/-! ### Helper lemmas -/

theorem uconv_ofNat (w d : Nat) (hd : d < 2 ^ w) : uconv w (d : Int) = d := by
  unfold uconv
  rw [Int.emod_eq_of_lt (by positivity) (by exact_mod_cast hd)]
  exact Int.toNat_natCast d

theorem uconv_negVal (w : Nat) (v : Int) (hv0 : v < 0) (hvw : -((2 : Int) ^ w) < v) :
    (uconv w v : Int) = 2 ^ w + v := by
  unfold uconv
  have hlo : (0 : Int) ≤ v + 2 ^ w := by linarith
  have hhi : v + 2 ^ w < 2 ^ w := by linarith
  have he : v % ((2 : Int) ^ w) = v + 2 ^ w := by
    have h1 := @Int.add_mul_emod_self_left v ((2 : Int) ^ w) 1
    rw [mul_one] at h1
    rw [← h1]
    exact Int.emod_eq_of_lt hlo hhi
  rw [he, Int.toNat_of_nonneg hlo]
  ring

theorem natCast_ne_negOne (d : Nat) : (d : Int) ≠ -1 := by omega

/-! ### Claim theorems -/

/-- A sample task: never suspended, schedule-relative, fresh, worker
always asks to run again in 100 ms. -/
def coRet100 : CoRoutine := ⟨false, false, 0, fun _ => 100, 0⟩

/-- A sample task whose worker always returns 0, schedule-relative. -/
def coRet0 : CoRoutine := ⟨false, false, 0, fun _ => 0, 0⟩

/-- A sample task whose worker suspends on the first call. -/
def coSuspendNow : CoRoutine := ⟨false, false, 0, fun _ => -1, 0⟩

/-- A sample completion-relative task whose worker returns 50. -/
def coExit50 : CoRoutine := ⟨false, true, 0, fun _ => 50, 0⟩

/-- Claim C6: for a task with `waitRelativeToWorkerExit = true`
(drift policy RelativeToCompletion), a `resume()` that runs the work
unit and gets back a delay `ms ≥ 0` sets the next-run time to exactly
the clock reading sampled after the work unit finishes plus `ms`
(in `unsigned long` arithmetic; exactly, absent wraparound), for every
simulated work-unit duration, i.e. for every value of the post-work
clock reading. -/
theorem relativeToCompletion_nextRun (w : Nat) (clk : Nat → Nat) (i : Nat)
    (s : CoRoutine) (ms : Nat)
    (hs : s.suspended = false) (hp : s.waitRelativeToWorkerExit = true)
    (hdue : s.nextRun ≤ millisRead w clk i)
    (hw : s.wret s.calls = (ms : Int)) (hms : ms < 2 ^ w) :
    (CoRoutine.resume w clk i s).1.nextRun = (millisRead w clk (i + 1) + ms) % 2 ^ w ∧
    (millisRead w clk (i + 1) + ms < 2 ^ w →
      (CoRoutine.resume w clk i s).1.nextRun = millisRead w clk (i + 1) + ms) := by
  have hne := natCast_ne_negOne ms
  simp only [CoRoutine.resume, hs, hdue, hw, hp, if_pos, and_self, if_true,
    if_neg hne, uconv_ofNat w ms hms]
  exact ⟨trivial, fun h => Nat.mod_eq_of_lt h⟩

/-- Witness for C6: a concrete completion-relative task, due at clock
reading 0, whose worker returns 50 while the post-work reading is 7:
the next run is scheduled at 57. -/
theorem relativeToCompletion_nextRun_witness :
    (CoRoutine.resume 32 (fun j => 7 * j) 0 coExit50).1.nextRun = 57 :=
  (relativeToCompletion_nextRun 32 (fun j => 7 * j) 0 coExit50 50
    rfl rfl (by decide) rfl (by decide)).2 (by decide)

/-- Claim C8: `suspend()` makes the task dormant, and once a task is
dormant, any number of further `resume()` calls, at any clock values,
leave its state completely unchanged (in particular the work unit is
never executed: the call counter does not move) — resume is a permanent
no-op until `awake()`. -/
theorem dormant_resume_permanent_noop (w : Nat) (clk : Nat → Nat) (s : CoRoutine) :
    (CoRoutine.suspend s).suspended = true ∧
    (∀ i n, s.suspended = true →
      (resumeN w clk i s n).1 = s ∧ (resumeN w clk i s n).2 = i + n) := by
  refine ⟨rfl, fun i n hs => ?_⟩
  induction n generalizing i with
  | zero => exact ⟨rfl, rfl⟩
  | succ n ih =>
    have hstep : CoRoutine.resume w clk i s = (s, i + 1) := by
      simp [CoRoutine.resume, hs]
    simp only [resumeN, hstep]
    obtain ⟨h1, h2⟩ := ih (i + 1)
    exact ⟨h1, by omega⟩

/-- Witness for C8: a concrete task suspended by `suspend()`; ten
resumes at a running clock change nothing. -/
theorem dormant_resume_permanent_noop_witness :
    (resumeN 32 (fun j => j) 0 (CoRoutine.suspend coRet100) 10).1
      = CoRoutine.suspend coRet100 :=
  ((dormant_resume_permanent_noop 32 (fun j => j) (CoRoutine.suspend coRet100)).2
    0 10 rfl).1

/-- Claim C10: a work-unit return value `v` with `v < 0` and `v ≠ -1`
does not suspend the task; `v` is converted to `unsigned long` modulo
`2 ^ w`, giving the value `2 ^ w + v`, which is added as a delay — so
the task is scheduled about `2 ^ w + v` milliseconds in the future
rather than treated as a suspension signal. (Stated for any due task;
the scheduling equation is given for the schedule-relative first-run
branch.) -/
theorem negative_wait_not_suspended (w : Nat) (clk : Nat → Nat) (i : Nat)
    (s : CoRoutine) (v : Int)
    (hs : s.suspended = false) (hdue : s.nextRun ≤ millisRead w clk i)
    (hw : s.wret s.calls = v) (hv0 : v < 0) (hv1 : v ≠ -1)
    (hvw : -((2 : Int) ^ w) < v) :
    (CoRoutine.resume w clk i s).1.suspended = false ∧
    ((uconv w v : Int) = 2 ^ w + v) ∧
    (s.waitRelativeToWorkerExit = false → s.nextRun = 0 →
      (CoRoutine.resume w clk i s).1.nextRun
        = (millisRead w clk i + uconv w v) % 2 ^ w) := by
  refine ⟨?_, uconv_negVal w v hv0 hvw, fun hp h0 => ?_⟩
  · simp only [CoRoutine.resume, hs, hdue, hw, and_self, if_true, if_neg hv1]
    split
    · rfl
    · split
      · rfl
      · rfl
  · simp [CoRoutine.resume, hs, hdue, hw, hv1, hp, h0]

/-- A sample fresh schedule-relative task whose worker returns -100. -/
def coNeg100 : CoRoutine := ⟨false, false, 0, fun _ => -100, 0⟩

/-- Witness for C10: with a 16-bit `unsigned long`, a worker returning
-100 on a fresh task at clock 0 leaves the task running and schedules
it at 65436 = 2^16 - 100. -/
theorem negative_wait_not_suspended_witness :
    (CoRoutine.resume 16 (fun _ => 0) 0 coNeg100).1.suspended = false ∧
    (CoRoutine.resume 16 (fun _ => 0) 0 coNeg100).1.nextRun = 65436 := by
  have h := negative_wait_not_suspended 16 (fun _ => 0) 0 coNeg100 (-100)
    rfl (by decide) rfl (by decide) (by decide) (by decide)
  exact ⟨h.1, by rw [h.2.2 rfl rfl]; decide⟩

/-- Claim C7: on a dormant task, `awake()` clears the dormancy flag and
resets `next_run_at` to the UNSET sentinel 0 (leaving the worker script,
its call count and the drift policy untouched), so the very next
`resume()` — at any clock value — executes the work unit (the worker
call count increments). On a non-dormant task, `awake()` changes
nothing. -/
theorem awake_forces_immediate_run (w : Nat) (clk : Nat → Nat) (i : Nat)
    (s : CoRoutine) :
    (s.suspended = true →
      s.awake.suspended = false ∧ s.awake.nextRun = 0 ∧
      s.awake.wret = s.wret ∧ s.awake.calls = s.calls ∧
      s.awake.waitRelativeToWorkerExit = s.waitRelativeToWorkerExit ∧
      (CoRoutine.resume w clk i s.awake).1.calls = s.calls + 1) ∧
    (s.suspended = false → s.awake = s) := by
  constructor
  · intro hs
    have ha : s.awake = { s with nextRun := 0, suspended := false } := by
      simp [CoRoutine.awake, hs]
    refine ⟨by rw [ha], by rw [ha], by rw [ha], by rw [ha], by rw [ha], ?_⟩
    rw [ha]
    simp only [CoRoutine.resume]
    rw [if_pos ⟨by trivial, Nat.zero_le _⟩]
    split
    · rfl
    · split
      · rfl
      · split
        · rfl
        · rfl
  · intro hs
    simp [CoRoutine.awake, hs]

/-- Witness for C7: a concrete dormant task; `awake()` resets it and the
next `resume()` at clock value 9999 runs the worker once. -/
theorem awake_forces_immediate_run_witness :
    (CoRoutine.suspend coRet100).awake.nextRun = 0 ∧
    (CoRoutine.resume 32 (fun _ => 9999) 0 (CoRoutine.suspend coRet100).awake).1.calls
      = 1 := by
  have h := (awake_forces_immediate_run 32 (fun _ => 9999) 0
    (CoRoutine.suspend coRet100)).1 rfl
  exact ⟨h.2.1, h.2.2.2.2.2⟩

/-- One schedule-relative `resume()` on a first run (`nextRun = 0`):
seeds `nextRun` from the clock reading taken at the start of the run. -/
theorem resume_first_sched (w : Nat) (clk : Nat → Nat) (i : Nat)
    (s : CoRoutine) (d : Nat)
    (hs : s.suspended = false) (hp : s.waitRelativeToWorkerExit = false)
    (h0 : s.nextRun = 0) (hw : s.wret s.calls = (d : Int)) (hd : d < 2 ^ w) :
    CoRoutine.resume w clk i s
      = ({ s with
            nextRun := (millisRead w clk i + d) % 2 ^ w,
            calls := s.calls + 1 },
         i + 1) := by
  simp only [CoRoutine.resume, hw, hp, hs, h0]
  rw [if_pos ⟨by trivial, Nat.zero_le _⟩, if_neg (natCast_ne_negOne d)]
  simp [uconv_ofNat w d hd]

/-- One schedule-relative `resume()` on a later run (`nextRun ≠ 0`) that
is due: accumulates the delay onto the previous scheduled time. -/
theorem resume_step_sched (w : Nat) (clk : Nat → Nat) (i : Nat)
    (s : CoRoutine) (d : Nat)
    (hs : s.suspended = false) (hp : s.waitRelativeToWorkerExit = false)
    (hdue : s.nextRun ≤ millisRead w clk i)
    (hw : s.wret s.calls = (d : Int)) (hm : s.nextRun ≠ 0)
    (hnw : s.nextRun + d < 2 ^ w) :
    CoRoutine.resume w clk i s
      = ({ s with nextRun := s.nextRun + d, calls := s.calls + 1 }, i + 1) := by
  have hd : d < 2 ^ w := by omega
  simp only [CoRoutine.resume, hw, hp, hs]
  rw [if_pos ⟨by trivial, hdue⟩, if_neg (natCast_ne_negOne d)]
  rw [if_neg (by simp : ¬(false = true))]
  rw [if_pos (show s.nextRun ≠ 0 from hm)]
  rw [uconv_ofNat w d hd, Nat.mod_eq_of_lt hnw]

/-- `m` schedule-relative resumes on an already-seeded task
(`nextRun ≠ 0`), each due at its clock reading, with a constant worker
delay `d`: the scheduled time accumulates `m * d` and the worker runs
`m` times. -/
theorem resumeN_sched (w : Nat) (clk : Nat → Nat) (d : Nat) :
    ∀ (m i : Nat) (s : CoRoutine),
      s.suspended = false → s.waitRelativeToWorkerExit = false →
      (∀ k, s.wret k = (d : Int)) →
      s.nextRun ≠ 0 →
      s.nextRun + m * d < 2 ^ w →
      (∀ k, k < m → s.nextRun + k * d ≤ millisRead w clk (i + k)) →
      (resumeN w clk i s m).1
          = { s with nextRun := s.nextRun + m * d, calls := s.calls + m } ∧
        (resumeN w clk i s m).2 = i + m := by
  intro m
  induction m with
  | zero =>
    intro i s hs hp hw hm hnw hdue
    exact ⟨by cases s; simp [resumeN], by simp [resumeN]⟩
  | succ m ih =>
    intro i s hs hp hw hm hnw hdue
    have hdue0 : s.nextRun ≤ millisRead w clk i := by
      have h := hdue 0 (Nat.succ_pos m)
      simpa using h
    have hnw1 : s.nextRun + d < 2 ^ w := by
      have hmul : d ≤ (m + 1) * d := Nat.le_mul_of_pos_left d (Nat.succ_pos m)
      omega
    have hstep := resume_step_sched w clk i s d hs hp hdue0 (hw s.calls) hm hnw1
    have hring : s.nextRun + (m + 1) * d = s.nextRun + d + m * d := by ring
    have hrec := ih (i + 1)
      { s with nextRun := s.nextRun + d, calls := s.calls + 1 }
      hs hp hw
      (show s.nextRun + d ≠ 0 by omega)
      (show s.nextRun + d + m * d < 2 ^ w by omega)
      (by intro k hk
          show s.nextRun + d + k * d ≤ millisRead w clk (i + 1 + k)
          have h := hdue (k + 1) (by omega)
          have he : s.nextRun + (k + 1) * d = s.nextRun + d + k * d := by ring
          have hi : i + (k + 1) = i + 1 + k := by omega
          rw [he, hi] at h
          exact h)
    have h1 : s.nextRun + d + m * d = s.nextRun + (m + 1) * d := by ring
    have h2 : s.calls + 1 + m = s.calls + (m + 1) := by omega
    constructor
    · show (resumeN w clk (CoRoutine.resume w clk i s).2
        (CoRoutine.resume w clk i s).1 m).1 = _
      rw [hstep]
      show (resumeN w clk (i + 1)
        { s with nextRun := s.nextRun + d, calls := s.calls + 1 } m).1 = _
      rw [hrec.1]
      show ({ s with
          nextRun := s.nextRun + d + m * d,
          calls := s.calls + 1 + m } : CoRoutine) = _
      rw [h1, h2]
    · show (resumeN w clk (CoRoutine.resume w clk i s).2
        (CoRoutine.resume w clk i s).1 m).2 = _
      rw [hstep]
      show (resumeN w clk (i + 1)
        { s with nextRun := s.nextRun + d, calls := s.calls + 1 } m).2 = _
      rw [hrec.2]
      omega

/-- Claim C1 (amended): for a fresh task with drift policy
RelativeToSchedule whose worker always returns the same delay `d ≥ 0`,
after `n ≥ 1` successful `resume()` invocations — every one due at its
own (arbitrary, hence jitter-independent) clock reading — the scheduled
time is exactly `t0 + n * d`, where `t0` is the clock reading of the
first run, provided the first scheduled time `t0 + d` is not the UNSET
sentinel 0 and the accumulated time stays within `unsigned long` range.
(Without the sentinel proviso the claim fails: see the
counterexample theorem for `d = 0` starting at clock 0.) -/
theorem relativeToSchedule_accumulates (w : Nat) (clk : Nat → Nat) (i : Nat)
    (s : CoRoutine) (d n : Nat)
    (hs : s.suspended = false) (hp : s.waitRelativeToWorkerExit = false)
    (h0 : s.nextRun = 0) (hw : ∀ k, s.wret k = (d : Int))
    (hn : 1 ≤ n)
    (hsent : millisRead w clk i + d ≠ 0)
    (hnw : millisRead w clk i + n * d < 2 ^ w)
    (hdue : ∀ k, k < n → millisRead w clk i + k * d ≤ millisRead w clk (i + k)) :
    (resumeN w clk i s n).1.nextRun = millisRead w clk i + n * d := by
  obtain ⟨m, rfl⟩ : ∃ m, n = m + 1 := ⟨n - 1, by omega⟩
  have hd2 : d < 2 ^ w := by
    have hmul : d ≤ (m + 1) * d := Nat.le_mul_of_pos_left d (Nat.succ_pos m)
    omega
  have ht1 : millisRead w clk i + d < 2 ^ w := by
    have hmul : d ≤ (m + 1) * d := Nat.le_mul_of_pos_left d (Nat.succ_pos m)
    omega
  have hfirst := resume_first_sched w clk i s d hs hp h0 (hw s.calls) hd2
  have hrec := resumeN_sched w clk d m (i + 1)
    { s with nextRun := (millisRead w clk i + d) % 2 ^ w, calls := s.calls + 1 }
    hs hp hw
    (by simpa [Nat.mod_eq_of_lt ht1] using hsent)
    (by simp only [Nat.mod_eq_of_lt ht1]
        have : millisRead w clk i + d + m * d = millisRead w clk i + (m + 1) * d := by
          ring
        omega)
    (by intro k hk
        simp only [Nat.mod_eq_of_lt ht1]
        have h := hdue (k + 1) (by omega)
        have he : millisRead w clk i + (k + 1) * d
            = millisRead w clk i + d + k * d := by ring
        have hi : i + (k + 1) = i + 1 + k := by omega
        simpa [he, hi] using h)
  show (resumeN w clk (CoRoutine.resume w clk i s).2
      (CoRoutine.resume w clk i s).1 m).1.nextRun = _
  rw [hfirst]
  show (resumeN w clk (i + 1)
    { s with
        nextRun := (millisRead w clk i + d) % 2 ^ w,
        calls := s.calls + 1 } m).1.nextRun = _
  rw [hrec.1]
  show (millisRead w clk i + d) % 2 ^ w + m * d = _
  rw [Nat.mod_eq_of_lt ht1]
  ring

/-- Counterexample to claim C1 as stated: a schedule-relative task whose
worker always returns delay `d = 0`, successfully resumed at the
monotone clock readings 0 and then 5. The first run seeds
`nextRun = 0 + 0 = 0`, which collides with the UNSET sentinel, so the
second run re-seeds from the current clock: `nextRun` ends at 5, not at
the claimed first-run reading plus `2 * 0 = 0`. -/
theorem relativeToSchedule_sentinel_cex :
    (resumeN 32 (fun j => [0, 5].getD j 0) 0 coRet0 2).1.nextRun = 5 ∧
    (5 : Nat) ≠ 0 + 2 * 0 := by decide

/-- Witness for C1 (amended), matching the spec's concrete scenario:
delay 100 from clock 0 with successful runs at readings 0, 100, 250 —
after the third (late, at 250) run the scheduled time is 300, not
350. -/
theorem relativeToSchedule_accumulates_witness :
    (resumeN 32 (fun j => [0, 100, 250].getD j 0) 0 coRet100 3).1.nextRun = 300 ∧
    (300 : Nat) ≠ 350 := by
  have h := relativeToSchedule_accumulates 32 (fun j => [0, 100, 250].getD j 0) 0
    coRet100 100 3 rfl rfl rfl (fun k => rfl) (by decide) (by decide) (by decide)
    (by decide)
  rw [h]
  exact ⟨by decide, by decide⟩

/-- A registry which holds a single task at pointer 7 whose worker
suspends on its first call. -/
def heapC2 : Nat → CoRoutine := fun _ => coSuspendNow

/-- A scheduler with the single entry 7. -/
def schedC2 : Scheduler := ⟨[7], 1⟩

/-- Claim C2 (code bug): the pruning pass of `runOnce(true)` iterates
`for (size_t i = noEntries-1; i != 0; --i)`, so index 0 is never
inspected. With a single registered task whose worker suspends on its
first call, a sweep with pruning leaves the now-dormant task in the
registry instead of removing it. -/
theorem pruneSkipsIndexZeroBug :
    ((Scheduler.runOnce 32 2 (fun _ => 0) heapC2 0 schedC2 true).2.2).entries = [7] ∧
    ((Scheduler.runOnce 32 2 (fun _ => 0) heapC2 0 schedC2 true).1 7).suspended
      = true := by decide

/-- A scheduler holding three distinct pointers (two-byte pointers
0x0102, 0x0304, 0x0506). -/
def schedC3 : Scheduler := ⟨[258, 772, 1286], 4⟩

/-- Claim C3 (code bug): removing the middle entry 0x0304 from
[0x0102, 0x0304, 0x0506] with pointer size 2 should shift the tail left
unchanged, giving [0x0102, 0x0506]. The source's
`memcpy(&coRoutines[foundIndex], &coRoutines[foundIndex+1], entriesToMove)`
copies `entriesToMove` bytes instead of `entriesToMove * sizeof(CoRoutine*)`,
so only the low byte of the successor is copied: the surviving second
entry becomes the corrupt pointer 0x0306 (774), not 0x0506 (1286). -/
theorem removeShiftsBytesNotEntries :
    (schedC3.removeCoRoutine 2 772).entries = [258, 774] ∧
    (774 : Nat) ≠ 1286 := by decide

/-- A scheduler holding pointers 5 (first registered) and 9. -/
def schedC4 : Scheduler := ⟨[5, 9], 2⟩

/-- Claim C4 (code bug): the removal scan
`for (size_t i = noEntries-1; i != 0; --i)` stops before index 0, so a
task whose only occurrence is the first-registered position is never
found: `removeCoRoutine` on pointer 5 in [5, 9] is a no-op even though
5 is a member. -/
theorem removeNeverInspectsIndexZero :
    (schedC4.removeCoRoutine 2 5).entries = [5, 9] ∧
    (schedC4.removeCoRoutine 2 5).arraySize = schedC4.arraySize ∧
    5 ∈ schedC4.entries := by decide

/-- A schedule-relative task's `resume()` consumes exactly one clock
reading (only the RelativeToCompletion drift policy reads the clock a
second time after the work unit). -/
theorem resume_reads_one (w : Nat) (clk : Nat → Nat) (i : Nat) (s : CoRoutine)
    (hp : s.waitRelativeToWorkerExit = false) :
    (CoRoutine.resume w clk i s).2 = i + 1 := by
  simp only [CoRoutine.resume, hp]
  split
  · split
    · rfl
    · rw [if_neg (by simp : ¬(false = true))]
      split
      · rfl
      · rfl
  · rfl

/-- Frame property of the sweep's first pass: a task whose pointer is
not among the entries is untouched. -/
theorem sweepResume_frame (w : Nat) (clk : Nat → Nat) :
    ∀ (es : List Nat) (h : Nat → CoRoutine) (i p : Nat), p ∉ es →
      (sweepResume w clk h i es).1 p = h p := by
  intro es
  induction es with
  | nil => intro h i p _; rfl
  | cons q qs ih =>
    intro h i p hp
    have h1 : p ≠ q ∧ p ∉ qs := by simpa using hp
    show (sweepResume w clk
      (fun r => if r = q then (CoRoutine.resume w clk i (h q)).1 else h r)
      (CoRoutine.resume w clk i (h q)).2 qs).1 p = h p
    rw [ih _ _ p h1.2]
    simp [h1.1]

/-- The sweep's first pass, on duplicate-free entries of
schedule-relative tasks: the final state of the `j`-th registered task
is its state after exactly one `resume()`, performed with the `j`-th
fresh clock reading of the sweep (reads are consumed one per task, in
registration order). -/
theorem sweep_resumes_each (w : Nat) (clk : Nat → Nat) :
    ∀ (es : List Nat) (h : Nat → CoRoutine) (i0 : Nat), es.Nodup →
      (∀ p ∈ es, (h p).waitRelativeToWorkerExit = false) →
      ∀ (j : Fin es.length),
        (sweepResume w clk h i0 es).1 (es.get j)
          = (CoRoutine.resume w clk (i0 + j.val) (h (es.get j))).1 := by
  intro es
  induction es with
  | nil => intro h i0 _ _ j; exact absurd j.isLt (by simp)
  | cons q qs ih =>
    intro h i0 hnd hpol j
    have hq : q ∉ qs := (List.nodup_cons.mp hnd).1
    have hnd2 : qs.Nodup := (List.nodup_cons.mp hnd).2
    have hidx := resume_reads_one w clk i0 (h q) (hpol q (List.mem_cons_self q qs))
    cases j using Fin.cases with
    | zero =>
      show (sweepResume w clk
        (fun r => if r = q then (CoRoutine.resume w clk i0 (h q)).1 else h r)
        (CoRoutine.resume w clk i0 (h q)).2 qs).1 q
          = (CoRoutine.resume w clk (i0 + 0) (h q)).1
      rw [sweepResume_frame w clk qs _ _ q hq]
      simp
    | succ j =>
      show (sweepResume w clk
        (fun r => if r = q then (CoRoutine.resume w clk i0 (h q)).1 else h r)
        (CoRoutine.resume w clk i0 (h q)).2 qs).1 (qs.get j) = _
      rw [hidx]
      have hget : qs.get j ∈ qs := List.get_mem qs j.val j.isLt
      have hne : qs.get j ≠ q := fun he => hq (he ▸ hget)
      have hpol2 : ∀ p ∈ qs,
          ((fun r => if r = q then (CoRoutine.resume w clk i0 (h q)).1 else h r) p
            ).waitRelativeToWorkerExit = false := by
        intro p hpm
        have hpne : p ≠ q := fun he => hq (he ▸ hpm)
        simp only [if_neg hpne]
        exact hpol p (List.mem_cons_of_mem q hpm)
      have := ih (fun r => if r = q then (CoRoutine.resume w clk i0 (h q)).1 else h r)
        (i0 + 1) hnd2 hpol2 j
      rw [this]
      simp only [if_neg hne]
      have hiv : i0 + 1 + j.val = i0 + (j.val + 1) := by omega
      rw [hiv]
      rfl

/-- Claim C5 (amended): one sweep (`runOnce`, with or without pruning)
calls `resume()` on each registered entry exactly once, in registration
order — the `j`-th (duplicate-free, schedule-relative) task's final
state is the result of a single `resume()` — but there is no single
per-sweep clock reading: each task's `resume()` takes its own fresh
reading, the `j`-th task seeing the `j`-th reading consumed by the
sweep. -/
theorem runOnce_resumes_each_once (w S : Nat) (clk : Nat → Nat)
    (h : Nat → CoRoutine) (i0 : Nat) (sch : Scheduler) (prune : Bool)
    (hnd : sch.entries.Nodup)
    (hpol : ∀ p ∈ sch.entries, (h p).waitRelativeToWorkerExit = false)
    (j : Fin sch.entries.length) :
    (Scheduler.runOnce w S clk h i0 sch prune).1 (sch.entries.get j)
      = (CoRoutine.resume w clk (i0 + j.val) (h (sch.entries.get j))).1 := by
  have hmain := sweep_resumes_each w clk sch.entries h i0 hnd hpol j
  simp only [Scheduler.runOnce]
  split
  · exact hmain
  · exact hmain

/-- A registry in which every pointer maps to a fresh schedule-relative
task returning 100. -/
def heapTwo : Nat → CoRoutine := fun _ => coRet100

/-- A scheduler with the two entries 1 and 2. -/
def schedTwo : Scheduler := ⟨[1, 2], 2⟩

/-- Counterexample to claim C5 as stated: with a clock that advances by
one per reading, two identical fresh tasks swept once end with
different next-run times (100 and 101), because each task's due-time
check re-reads the clock; under a single per-sweep reading both would
be 100. -/
theorem runOnce_clock_reread_cex :
    ((Scheduler.runOnce 32 4 (fun j => j) heapTwo 0 schedTwo false).1 1).nextRun
        = 100 ∧
    ((Scheduler.runOnce 32 4 (fun j => j) heapTwo 0 schedTwo false).1 2).nextRun
        = 101 ∧
    (101 : Nat) ≠ 100 := by decide

/-- Witness for C5 (amended): the second entry of the two-task registry
ends exactly as one `resume()` with the second clock reading leaves
it. -/
theorem runOnce_resumes_each_once_witness :
    (Scheduler.runOnce 32 4 (fun j => j) heapTwo 0 schedTwo false).1
        (schedTwo.entries.get ⟨1, by decide⟩)
      = (CoRoutine.resume 32 (fun j => j) (0 + 1)
          (heapTwo (schedTwo.entries.get ⟨1, by decide⟩))).1 :=
  runOnce_resumes_each_once 32 4 (fun j => j) heapTwo 0 schedTwo false
    (by decide) (fun p _ => rfl) ⟨1, by decide⟩

/-- Reading `n` pointers back from a byte buffer yields `n` entries. -/
theorem unflattenEntries_length (S : Nat) :
    ∀ (n : Nat) (bs : List Nat), (unflattenEntries S n bs).length = n := by
  intro n
  induction n with
  | zero => intro bs; rfl
  | succ n ih => intro bs; simp [unflattenEntries, ih]

/-- `removeCoRoutine` never touches the allocated capacity. -/
theorem removeCoRoutine_arraySize (S : Nat) (sch : Scheduler) (p : Nat) :
    (sch.removeCoRoutine S p).arraySize = sch.arraySize := by
  unfold Scheduler.removeCoRoutine
  split
  · rfl
  · split
    · rfl
    · rfl

/-- `removeCoRoutine` removes at most one entry: the count stays or
drops by exactly one. -/
theorem removeCoRoutine_length (S : Nat) (sch : Scheduler) (p : Nat) :
    (sch.removeCoRoutine S p).entries.length = sch.entries.length ∨
    (sch.removeCoRoutine S p).entries.length + 1 = sch.entries.length := by
  unfold Scheduler.removeCoRoutine
  split
  · exact Or.inl rfl
  · split
    · exact Or.inl rfl
    · right
      show (unflattenEntries S (sch.entries.length - 1) _).length + 1 = _
      rw [unflattenEntries_length]
      omega

/-- The registry invariant of claim C9: the capacity is zero or a power
of two, and the logical count never exceeds the capacity. -/
def SchedInv (sch : Scheduler) : Prop :=
  (sch.arraySize = 0 ∨ ∃ k, sch.arraySize = 2 ^ k) ∧
  sch.entries.length ≤ sch.arraySize

/-- Any single add or remove preserves the registry invariant, never
shrinks the capacity, and changes the capacity only by the geometric
doubling step (with 0 growing to 1). -/
theorem applyOp_inv (S : Nat) (sch : Scheduler) (op : SchedOp)
    (h : SchedInv sch) :
    SchedInv (applyOp S sch op) ∧
    sch.arraySize ≤ (applyOp S sch op).arraySize ∧
    ((applyOp S sch op).arraySize = sch.arraySize ∨
      (applyOp S sch op).arraySize
        = (if sch.arraySize = 0 then 1 else 2 * sch.arraySize)) := by
  obtain ⟨hpow, hle⟩ := h
  cases op with
  | add p =>
    have hsz : (applyOp S sch (SchedOp.add p)).arraySize
        = resizeCap sch.arraySize (sch.entries.length + 1) := rfl
    have hlen : (applyOp S sch (SchedOp.add p)).entries.length
        = sch.entries.length + 1 := by
      show (sch.entries ++ [p]).length = _
      simp
    by_cases hfull : sch.arraySize < sch.entries.length + 1
    · have hcap : (applyOp S sch (SchedOp.add p)).arraySize
          = (if sch.arraySize = 0 then 1 else 2 * sch.arraySize) := by
        rw [hsz]; unfold resizeCap; rw [if_pos hfull]
      rcases hpow with h0 | ⟨k, hk⟩
      · have h1 : (applyOp S sch (SchedOp.add p)).arraySize = 1 := by
          rw [hcap, if_pos h0]
        refine ⟨⟨Or.inr ⟨0, by rw [h1]; rfl⟩, ?_⟩, by omega, Or.inr hcap⟩
        rw [hlen, h1]
        omega
      · have hne : sch.arraySize ≠ 0 := by
          rw [hk]; positivity
        have h2 : (applyOp S sch (SchedOp.add p)).arraySize
            = 2 * sch.arraySize := by
          rw [hcap, if_neg hne]
        refine ⟨⟨Or.inr ⟨k + 1, by rw [h2, hk]; ring⟩, ?_⟩, by omega,
          Or.inr hcap⟩
        rw [hlen, h2]
        omega
    · have hcap : (applyOp S sch (SchedOp.add p)).arraySize = sch.arraySize := by
        rw [hsz]; unfold resizeCap; rw [if_neg hfull]
      refine ⟨⟨by rw [hcap]; exact hpow, ?_⟩, by omega, Or.inl hcap⟩
      rw [hlen, hcap]
      omega
  | remove p =>
    have ha : (applyOp S sch (SchedOp.remove p)).arraySize = sch.arraySize :=
      removeCoRoutine_arraySize S sch p
    have hl := removeCoRoutine_length S sch p
    refine ⟨⟨by rw [ha]; exact hpow, ?_⟩, by omega, Or.inl ha⟩
    show (sch.removeCoRoutine S p).entries.length
        ≤ (applyOp S sch (SchedOp.remove p)).arraySize
    rw [ha]
    omega

/-- The registry invariant holds after any operation sequence from the
empty registry. -/
theorem runOps_inv (S : Nat) (ops : List SchedOp) : SchedInv (runOps S ops) := by
  suffices h : ∀ (l : List SchedOp) (sch : Scheduler), SchedInv sch →
      SchedInv (l.foldl (applyOp S) sch) by
    exact h ops ⟨[], 0⟩ ⟨Or.inl rfl, le_refl 0⟩
  intro l
  induction l with
  | nil => intro sch h; exact h
  | cons op l ih =>
    intro sch h
    exact ih (applyOp S sch op) (applyOp_inv S sch op h).1

/-- Claim C9: starting from an empty registry, after any sequence of
add/remove operations the capacity is 0 or a power of two (0, 1, 2, 4,
8, ...), the logical count is at most the capacity, and one further
operation never shrinks the capacity and can only keep it or perform
one geometric-doubling step (0 growing to 1). -/
theorem registry_capacity_invariant (S : Nat) (ops : List SchedOp) (op : SchedOp) :
    ((runOps S ops).arraySize = 0 ∨ ∃ k, (runOps S ops).arraySize = 2 ^ k) ∧
    (runOps S ops).entries.length ≤ (runOps S ops).arraySize ∧
    (runOps S ops).arraySize ≤ (runOps S (ops ++ [op])).arraySize ∧
    ((runOps S (ops ++ [op])).arraySize = (runOps S ops).arraySize ∨
      (runOps S (ops ++ [op])).arraySize
        = (if (runOps S ops).arraySize = 0 then 1
           else 2 * (runOps S ops).arraySize)) := by
  have hinv := runOps_inv S ops
  have happ : runOps S (ops ++ [op]) = applyOp S (runOps S ops) op := by
    unfold runOps
    rw [List.foldl_append]
    rfl
  have hstep := applyOp_inv S (runOps S ops) op hinv
  exact ⟨hinv.1, hinv.2, by rw [happ]; exact hstep.2.1, by rw [happ]; exact hstep.2.2⟩

/-- Witness for C9: after one add the count (1) is within the capacity
(1), instantiating the invariant at a concrete operation sequence. -/
theorem registry_capacity_invariant_witness :
    (runOps 2 [SchedOp.add 5]).entries.length ≤ (runOps 2 [SchedOp.add 5]).arraySize :=
  (registry_capacity_invariant 2 [SchedOp.add 5] (SchedOp.add 6)).2.1

end CoRoutines
